import Mathlib

/-!
Verification of the aiorecollect client library (`aiorecollect/client.py`).

The Python source is shallowly embedded: the JSON payload is modelled by
explicit record types (with `Option` marking keys that may be absent), the
parsing loop of `Client.async_get_pickup_events` becomes a recursive function
threading the `area_name` variable, unhandled Python exceptions (KeyError,
ValueError) and the library's own error classes become `Except` errors, and
the session/`try`/`finally` logic of `Client._async_request` is modelled as a
trace of session actions together with the request outcome.
-/

namespace Aiorecollect

/-- A calendar date, as Python `datetime.date`: year, month, day. -/
structure Date where
  year : Nat
  month : Nat
  day : Nat
deriving DecidableEq, Repr

/-- Python `date` comparison `a <= b`: lexicographic on (year, month, day). -/
def dateLE (a b : Date) : Bool :=
  a.year < b.year ||
    (a.year == b.year &&
      (a.month < b.month || (a.month == b.month && a.day ≤ b.day)))

/-- `PickupType` dataclass: a waste pickup type. -/
structure PickupType where
  name : String
  friendly_name : Option String := none
deriving DecidableEq, Repr

/-- `PickupEvent` dataclass: a waste pickup event. -/
structure PickupEvent where
  date : Date
  pickup_types : List PickupType
  area_name : Option String
deriving DecidableEq, Repr

/-- A flag object inside an event of the API response.

* `event_type` is read with `flag.get("event_type")`, so a missing key and a
  JSON null are both `none`.
* `name` is read with `flag["name"]`; `none` models a missing key (KeyError).
* `subject` is read with `flag.get("subject")`.
* `area_name` is read with `flag["area_name"]`: `none` models a missing key
  (KeyError), `some none` a key present with JSON null, `some (some s)` a
  key present with string value `s`. -/
structure Flag where
  event_type : Option String
  name : Option String
  subject : Option String
  area_name : Option (Option String)
deriving DecidableEq, Repr

/-- An element of the response's `events` array. `flags = none` models an
event without a `"flags"` key; `day` is the event's `"day"` string. -/
structure RawEvent where
  flags : Option (List Flag)
  day : String
deriving DecidableEq, Repr

/-- A decoded API response payload (the `"events"` array). -/
structure Response where
  events : List RawEvent
deriving DecidableEq, Repr

/-- Unhandled Python exceptions that can escape the parsing loop:
`keyError k` models `KeyError(k)` from a dict subscript, `valueError`
models the ValueError raised by `datetime.strptime`. -/
inductive ParseExc where
  | keyError (key : String)
  | valueError
deriving DecidableEq, Repr

/-- Python truthiness of the `area_name` variable (a `str` or `None`):
`None` and the empty string are falsy. -/
def truthy : Option String → Bool
  | none => false
  | some s => !(s == "")

/-- The `if not area_name: area_name = flag["area_name"]` statement for one
pickup-type flag: keep a truthy value, otherwise read the flag's
`area_name` key (KeyError when the key is absent). -/
def latchArea (area : Option String) (f : Flag) : Except ParseExc (Option String) :=
  if truthy area then .ok area
  else
    match f.area_name with
    | none => .error (.keyError "area_name")
    | some v => .ok v

/-- The inner `for flag in event["flags"]` loop of
`Client.async_get_pickup_events`, threading the function-level `area_name`
variable and accumulating `pickup_types`. -/
def processFlags (area : Option String) :
    List Flag → Except ParseExc (Option String × List PickupType)
  | [] => .ok (area, [])
  | f :: fs =>
    if f.event_type != some "pickup" then processFlags area fs
    else
      match latchArea area f with
      | .error e => .error e
      | .ok area2 =>
        match f.name with
        | none => .error (.keyError "name")
        | some nm =>
          match processFlags area2 fs with
          | .error e => .error e
          | .ok (area3, pts) => .ok (area3, ⟨nm, f.subject⟩ :: pts)

/-- Gregorian leap year, as Python `datetime`. -/
def isLeap (y : Nat) : Bool :=
  y % 4 == 0 && (y % 100 != 0 || y % 400 == 0)

/-- Days in a month, as Python `datetime`. -/
def daysInMonth (y m : Nat) : Nat :=
  if m == 2 then (if isLeap y then 29 else 28)
  else if m == 4 || m == 6 || m == 9 || m == 11 then 30
  else 31

/-- The month token of CPython strptime's `%m` directive, regex
`1[0-2]|0[1-9]|[1-9]` (ordered alternation): returns the month and the
remaining characters. -/
def parseMonthTok : List Char → Option (Nat × List Char)
  | [] => none
  | c :: rest =>
    if c == '1' then
      match rest with
      | c2 :: rest2 =>
        if c2 == '0' || c2 == '1' || c2 == '2' then some (10 + (c2.toNat - 48), rest2)
        else some (1, rest)
      | [] => some (1, [])
    else if c == '0' then
      match rest with
      | c2 :: rest2 =>
        if c2.isDigit && !(c2 == '0') then some (c2.toNat - 48, rest2) else none
      | [] => none
    else if c.isDigit then some (c.toNat - 48, rest)
    else none

/-- The day token of CPython strptime's `%d` directive, regex
`3[01]|[12]\d|0[1-9]|[1-9]| [1-9]` (ordered alternation). -/
def parseDayTok : List Char → Option (Nat × List Char)
  | [] => none
  | c :: rest =>
    if c == '3' then
      match rest with
      | c2 :: rest2 =>
        if c2 == '0' || c2 == '1' then some (30 + (c2.toNat - 48), rest2)
        else some (3, rest)
      | [] => some (3, [])
    else if c == '1' || c == '2' then
      match rest with
      | c2 :: rest2 =>
        if c2.isDigit then some (10 * (c.toNat - 48) + (c2.toNat - 48), rest2)
        else some (c.toNat - 48, rest)
      | [] => some (c.toNat - 48, [])
    else if c == '0' then
      match rest with
      | c2 :: rest2 =>
        if c2.isDigit && !(c2 == '0') then some (c2.toNat - 48, rest2) else none
      | [] => none
    else if c == ' ' then
      match rest with
      | c2 :: rest2 =>
        if c2.isDigit && !(c2 == '0') then some (c2.toNat - 48, rest2) else none
      | [] => none
    else if c.isDigit then some (c.toNat - 48, rest)
    else none

/-- `datetime.strptime(s, "%Y-%m-%d").date()`: a 4-digit year, a literal
dash, the `%m` token, a dash, the `%d` token, and nothing left over; the
resulting calendar date must be constructible (`year >= 1` and the day
valid for the month), else ValueError. `none` models a raised ValueError. -/
def parseDay (s : String) : Option Date :=
  match s.toList with
  | c1 :: c2 :: c3 :: c4 :: '-' :: rest =>
    if c1.isDigit && c2.isDigit && c3.isDigit && c4.isDigit then
      let y := 1000 * (c1.toNat - 48) + 100 * (c2.toNat - 48) +
        10 * (c3.toNat - 48) + (c4.toNat - 48)
      match parseMonthTok rest with
      | some (m, '-' :: rest2) =>
        match parseDayTok rest2 with
        | some (d, []) =>
          if 1 ≤ y ∧ d ≤ daysInMonth y m then some ⟨y, m, d⟩ else none
        | _ => none
      | _ => none
    else none
  | _ => none

/-- The outer `for event in pickup_data["events"]` loop of
`Client.async_get_pickup_events`: skip events without a `"flags"` key, run
the flag loop, skip events with no pickup-type flags, parse the `"day"`
field, and emit a `PickupEvent` carrying the `area_name` value known at
construction time. Returns the final `area_name` variable together with
the accumulated events. -/
def processEvents (area : Option String) :
    List RawEvent → Except ParseExc (Option String × List PickupEvent)
  | [] => .ok (area, [])
  | e :: es =>
    match e.flags with
    | none => processEvents area es
    | some fs =>
      match processFlags area fs with
      | .error err => .error err
      | .ok (area2, pts) =>
        if pts.isEmpty then processEvents area2 es
        else
          match parseDay e.day with
          | none => .error .valueError
          | some d =>
            match processEvents area2 es with
            | .error err => .error err
            | .ok (area3, rest) => .ok (area3, ⟨d, pts, area2⟩ :: rest)

/-- The parsing stage of `Client.async_get_pickup_events`, applied to a
decoded payload: the loop starts with `area_name = None`. -/
def async_get_pickup_events_parse (r : Response) : Except ParseExc (List PickupEvent) :=
  match processEvents none r.events with
  | .error e => .error e
  | .ok (_, evs) => .ok evs

/-- An aiohttp `ClientSession`; only its `closed` state matters here. -/
structure Session where
  closed : Bool
deriving DecidableEq, Repr

/-- The cause of an aiohttp `ClientError`: a failure of the exchange itself,
or the `ClientResponseError` raised by `resp.raise_for_status()`. -/
inductive ClientErr where
  | connectionError
  | responseError (status : Nat)
deriving DecidableEq, Repr

/-- Outcome of the HTTP exchange as seen inside the `try` block of
`Client._async_request`: the request raises an aiohttp `ClientError`, the
configured total timeout (`ClientTimeout(total=10)`) expires — which
raises `asyncio.TimeoutError`, not an aiohttp `ClientError` — some other
non-`ClientError` exception escapes, or a response with a status code and
decoded body arrives. -/
inductive Transport where
  | failure
  | timeout
  | otherException
  | response (status : Nat) (body : Response)
deriving DecidableEq, Repr

/-- An exception escaping the `try` body before the `except` clause:
`timeoutError` is `asyncio.TimeoutError`, which is not in the
`ClientError` hierarchy. -/
inductive RawExc where
  | clientError (c : ClientErr)
  | timeoutError
  | other
deriving DecidableEq, Repr

/-- The `try` body of `Client._async_request`: perform the request, decode
the JSON body, then `resp.raise_for_status()` (which raises a `ClientError`
for status codes >= 400). -/
def tryBlock (t : Transport) : Except RawExc Response :=
  match t with
  | .failure => .error (.clientError .connectionError)
  | .timeout => .error .timeoutError
  | .otherException => .error .other
  | .response status body =>
    if 400 ≤ status then .error (.clientError (.responseError status))
    else .ok body

/-- What escapes `Client._async_request`: `RequestError(err)` wrapping the
`ClientError` cause, the `asyncio.TimeoutError` that the `except` clause
does not catch, or some other exception the method does not handle. -/
inductive ReqExc where
  | requestError (cause : ClientErr)
  | unhandledTimeout
  | unhandled
deriving DecidableEq, Repr

/-- The `except ClientError as err: raise RequestError(err) from None`
clause: only `ClientError` is translated; `asyncio.TimeoutError` and other
exceptions pass through unwrapped. -/
def handleClientError : Except RawExc Response → Except ReqExc Response
  | .ok b => .ok b
  | .error (.clientError c) => .error (.requestError c)
  | .error .timeoutError => .error .unhandledTimeout
  | .error .other => .error .unhandled

/-- Whether an exception escaping `_async_request` is the library's
request-error kind (`RequestError`). -/
def isRequestError : ReqExc → Bool
  | .requestError _ => true
  | _ => false

/-- Session lifecycle actions performed by `Client._async_request`. A
borrowed session is the externally supplied one; an own session is created
by the method for a single request. -/
inductive SessAction where
  | useBorrowed
  | createOwn
  | closeOwn
  | closeBorrowed
deriving DecidableEq, Repr

/-- `Client._async_request`: session selection
(`use_running_session := self._session and not self._session.closed`),
the `try`/`except` body, and the `finally` clause, which runs on every
exit path and closes the session exactly when it was not the running
external one. Returns the ordered log of session actions together with
the request outcome. -/
def asyncRequest (ext : Option Session) (t : Transport) :
    List SessAction × Except ReqExc Response :=
  let useRunning : Bool :=
    match ext with
    | some s => !s.closed
    | none => false
  let acquire := if useRunning then [SessAction.useBorrowed] else [SessAction.createOwn]
  let outcome := handleClientError (tryBlock t)
  let finallyActs := if useRunning then [] else [SessAction.closeOwn]
  (acquire ++ finallyActs, outcome)

/-- Everything `Client.async_get_pickup_events` can raise: what the request
raises, or what the parsing loop raises. -/
inductive ClientFailure where
  | req (e : ReqExc)
  | parse (e : ParseExc)
deriving DecidableEq, Repr

/-- `Client.async_get_pickup_events` end to end: the request followed by the
parsing loop. -/
def async_get_pickup_events (ext : Option Session) (t : Transport) :
    Except ClientFailure (List PickupEvent) :=
  match (asyncRequest ext t).2 with
  | .error e => .error (.req e)
  | .ok body =>
    match async_get_pickup_events_parse body with
    | .error e => .error (.parse e)
    | .ok evs => .ok evs

/-- Left-pad a number with zeros to the given width. -/
def padNum (width n : Nat) : String :=
  let s := toString n
  String.mk (List.replicate (width - s.length) '0') ++ s

/-- Python `date.isoformat()`: `YYYY-MM-DD`, zero padded. -/
def Date.isoformat (d : Date) : String :=
  padNum 4 d.year ++ "-" ++ padNum 2 d.month ++ "-" ++ padNum 2 d.day

/-- URL construction in `Client._async_get_pickup_data`: the query string is
appended exactly when both dates are supplied (`if start_date and
end_date`; `date` objects are always truthy). -/
def pickupDataUrl (apiUrl : String) : Option Date → Option Date → String
  | some s, some e =>
    apiUrl ++ "?after=" ++ s.isoformat ++ "&before=" ++ e.isoformat
  | _, _ => apiUrl

/-- The error raised by `Client.async_get_next_pickup_event`. -/
inductive NextErr where
  | dataError (msg : String)
deriving DecidableEq, Repr

/-- `Client.async_get_next_pickup_event`, given today's date and the fetched
event list: return the first event with `event.date >= date.today()`, else
raise `DataError`. -/
def async_get_next_pickup_event (today : Date) :
    List PickupEvent → Except NextErr PickupEvent
  | [] => .error (.dataError "No pickup events found after today")
  | e :: rest =>
    if dateLE today e.date then .ok e
    else async_get_next_pickup_event today rest

/-- A flag the loop keeps: `flag.get("event_type") == "pickup"`. -/
def isPickupFlag (f : Flag) : Bool :=
  f.event_type == some "pickup"

/-- An event the loop keeps: it has a `"flags"` key and at least one
pickup-type flag. -/
def keptEvent (e : RawEvent) : Bool :=
  match e.flags with
  | none => false
  | some fs => fs.any isPickupFlag

/-- The value the variable `area_name` would receive from a flag
(`flag["area_name"]`), with a missing key read as null; the loop only
reads the key before a truthy value is latched, and on every successful
parse the key is present at each such read. -/
def flagAreaVal (f : Flag) : Option String :=
  f.area_name.getD none

/-- The `area_name` values of a flag list's pickup-type flags, in order. -/
def pickupVals (fs : List Flag) : List (Option String) :=
  (fs.filter isPickupFlag).map flagAreaVal

/-- The `PickupType` records built from a flag list's pickup-type flags (on a
successful parse every such flag has a `"name"` key, so the default is
never used). -/
def pickupTypesOf (fs : List Flag) : List PickupType :=
  (fs.filter isPickupFlag).map (fun f => ⟨f.name.getD "", f.subject⟩)

/-- The `area_name` values of an event's pickup-type flags, in order. -/
def eventAreaVals (e : RawEvent) : List (Option String) :=
  pickupVals (e.flags.getD [])

/-- All `area_name` values of pickup-type flags across a response, in
iteration order. -/
def allAreaVals : List RawEvent → List (Option String)
  | [] => []
  | e :: es => eventAreaVals e ++ allAreaVals es

/-- One step of the latch `if not area_name: area_name = v`. -/
def latchStep (a v : Option String) : Option String :=
  if truthy a then a else v

/-- The latch folded over a list of flag values. -/
def latchList (a : Option String) (vs : List (Option String)) : Option String :=
  vs.foldl latchStep a

/-! ### Helper lemmas about the latch -/

theorem latchList_nil (a : Option String) : latchList a [] = a := rfl

theorem latchList_cons (a v : Option String) (vs : List (Option String)) :
    latchList a (v :: vs) = latchList (latchStep a v) vs := rfl

theorem latchList_append (a : Option String) (vs ws : List (Option String)) :
    latchList a (vs ++ ws) = latchList (latchList a vs) ws :=
  List.foldl_append latchStep a vs ws

theorem latchStep_of_truthy {a : Option String} (h : truthy a = true)
    (v : Option String) : latchStep a v = a := by
  simp [latchStep, h]

theorem latchStep_of_falsy {a : Option String} (h : truthy a = false)
    (v : Option String) : latchStep a v = v := by
  simp [latchStep, h]

/-- A truthy latch is never overwritten. -/
theorem latchList_of_truthy {a : Option String} (h : truthy a = true) :
    ∀ vs : List (Option String), latchList a vs = a
  | [] => rfl
  | v :: vs => by
    rw [latchList_cons, latchStep_of_truthy h, latchList_of_truthy h vs]

/-- Starting falsy, the latch ends at the first truthy value of the list. -/
theorem latchList_find_truthy :
    ∀ (vs : List (Option String)) (a v : Option String), truthy a = false →
      vs.find? truthy = some v → latchList a vs = v
  | [], _, _, _, h => by simp [List.find?] at h
  | w :: vs, a, v, ha, h => by
    by_cases hw : truthy w = true
    · rw [List.find?_cons_of_pos vs hw] at h
      cases h
      rw [latchList_cons, latchStep_of_falsy ha, latchList_of_truthy hw]
    · rw [List.find?_cons_of_neg vs (by simp [hw])] at h
      rw [latchList_cons, latchStep_of_falsy ha]
      exact latchList_find_truthy vs w v (by simpa using hw) h

/-- Starting falsy, over a list with no truthy value the latch stays falsy. -/
theorem latchList_of_no_truthy :
    ∀ (vs : List (Option String)) (a : Option String), truthy a = false →
      (∀ v ∈ vs, truthy v = false) → truthy (latchList a vs) = false
  | [], a, ha, _ => ha
  | w :: vs, a, ha, h => by
    rw [latchList_cons, latchStep_of_falsy ha]
    exact latchList_of_no_truthy vs w (h w (by simp)) fun v hv => h v (by simp [hv])

/-! ### Helper lemmas about the flag loop -/

theorem pickupVals_cons_pickup {f : Flag} (h : isPickupFlag f = true)
    (fs : List Flag) : pickupVals (f :: fs) = flagAreaVal f :: pickupVals fs := by
  simp [pickupVals, List.filter_cons, h]

theorem pickupVals_cons_other {f : Flag} (h : isPickupFlag f = false)
    (fs : List Flag) : pickupVals (f :: fs) = pickupVals fs := by
  simp [pickupVals, List.filter_cons, h]

theorem pickupTypesOf_cons_pickup {f : Flag} (h : isPickupFlag f = true)
    (fs : List Flag) :
    pickupTypesOf (f :: fs) = ⟨f.name.getD "", f.subject⟩ :: pickupTypesOf fs := by
  simp [pickupTypesOf, List.filter_cons, h]

theorem pickupTypesOf_cons_other {f : Flag} (h : isPickupFlag f = false)
    (fs : List Flag) : pickupTypesOf (f :: fs) = pickupTypesOf fs := by
  simp [pickupTypesOf, List.filter_cons, h]

/-- `isPickupFlag` as an equation on `event_type`. -/
theorem isPickupFlag_iff (f : Flag) :
    isPickupFlag f = true ↔ f.event_type = some "pickup" := by
  simp [isPickupFlag]

theorem bne_pickup_of_pickup {f : Flag} (h : isPickupFlag f = true) :
    (f.event_type != some "pickup") = false := by
  have := (isPickupFlag_iff f).mp h
  simp [this]

theorem bne_pickup_of_other {f : Flag} (h : isPickupFlag f = false) :
    (f.event_type != some "pickup") = true := by
  rw [bne_iff_ne]
  intro hc
  rw [(isPickupFlag_iff f).mpr hc] at h
  cases h

/-- On success, the flag loop leaves the latch at its fold over the pickup
flags' values and returns exactly the pickup flags' `PickupType`s. -/
theorem processFlags_ok_spec :
    ∀ (fs : List Flag) (a a2 : Option String) (pts : List PickupType),
      processFlags a fs = .ok (a2, pts) →
      a2 = latchList a (pickupVals fs) ∧ pts = pickupTypesOf fs := by
  intro fs
  induction fs with
  | nil =>
    intro a a2 pts h
    cases h
    exact ⟨rfl, rfl⟩
  | cons f fs ih =>
    intro a a2 pts h
    by_cases hp : isPickupFlag f = true
    · have hne := bne_pickup_of_pickup hp
      rw [pickupVals_cons_pickup hp, pickupTypesOf_cons_pickup hp, latchList_cons]
      by_cases ha : truthy a = true
      · have hl : latchArea a f = .ok a := by simp [latchArea, ha]
        cases hn : f.name with
        | none => simp [processFlags, hne, hl, hn] at h
        | some nm =>
          cases hrec : processFlags a fs with
          | error e => simp [processFlags, hne, hl, hn, hrec] at h
          | ok x =>
            obtain ⟨a3, pts3⟩ := x
            simp only [processFlags, hne, hl, hn, hrec, Bool.false_eq_true, if_false,
              Except.ok.injEq, Prod.mk.injEq] at h
            obtain ⟨h1, h2⟩ := h
            obtain ⟨ih1, ih2⟩ := ih a a3 pts3 hrec
            subst h1 h2
            rw [latchStep_of_truthy ha]
            exact ⟨ih1, by rw [ih2]; simp [hn]⟩
      · have ha2 : truthy a = false := by simpa using ha
        cases har : f.area_name with
        | none => simp [processFlags, hne, latchArea, ha2, har] at h
        | some v =>
          have hl : latchArea a f = .ok v := by simp [latchArea, ha2, har]
          cases hn : f.name with
          | none => simp [processFlags, hne, hl, hn] at h
          | some nm =>
            cases hrec : processFlags v fs with
            | error e => simp [processFlags, hne, hl, hn, hrec] at h
            | ok x =>
              obtain ⟨a3, pts3⟩ := x
              simp only [processFlags, hne, hl, hn, hrec, Bool.false_eq_true, if_false,
                Except.ok.injEq, Prod.mk.injEq] at h
              obtain ⟨h1, h2⟩ := h
              obtain ⟨ih1, ih2⟩ := ih v a3 pts3 hrec
              subst h1 h2
              rw [latchStep_of_falsy ha2]
              have hfv : flagAreaVal f = v := by simp [flagAreaVal, har]
              rw [hfv]
              exact ⟨ih1, by rw [ih2]; simp [hn]⟩
    · have hp2 : isPickupFlag f = false := by simpa using hp
      have hne := bne_pickup_of_other hp2
      rw [pickupVals_cons_other hp2, pickupTypesOf_cons_other hp2]
      refine ih a a2 pts ?_
      simpa [processFlags, hne] using h

/-- If every pickup-type flag carries `"name"` and `"area_name"` keys, the
flag loop cannot raise. -/
theorem processFlags_isOk :
    ∀ (fs : List Flag) (a : Option String),
      (∀ f ∈ fs, isPickupFlag f = true → f.name.isSome ∧ f.area_name.isSome) →
      ∃ x, processFlags a fs = .ok x := by
  intro fs
  induction fs with
  | nil => exact fun a _ => ⟨(a, []), rfl⟩
  | cons f fs ih =>
    intro a hkeys
    by_cases hp : isPickupFlag f = true
    · have hne := bne_pickup_of_pickup hp
      obtain ⟨hname, harea⟩ := hkeys f (by simp) hp
      obtain ⟨nm, hn⟩ := Option.isSome_iff_exists.mp hname
      obtain ⟨v, hv⟩ := Option.isSome_iff_exists.mp harea
      have hl : ∃ a2, latchArea a f = .ok a2 := by
        by_cases ha : truthy a = true
        · exact ⟨a, by simp [latchArea, ha]⟩
        · exact ⟨v, by simp [latchArea, ha, hv]⟩
      obtain ⟨a2, hl⟩ := hl
      obtain ⟨⟨a3, pts⟩, hrec⟩ := ih a2 fun g hg hgp => hkeys g (by simp [hg]) hgp
      refine ⟨(a3, ⟨nm, f.subject⟩ :: pts), ?_⟩
      simp [processFlags, hne, hl, hn, hrec]
    · have hp2 : isPickupFlag f = false := by simpa using hp
      have hne := bne_pickup_of_other hp2
      obtain ⟨x, hx⟩ := ih a fun g hg hgp => hkeys g (by simp [hg]) hgp
      refine ⟨x, ?_⟩
      simpa [processFlags, hne] using hx

/-! ### Helper lemmas about the event loop -/

theorem filter_eq_nil_of_pickupTypesOf {fs : List Flag}
    (h : pickupTypesOf fs = []) : fs.filter isPickupFlag = [] := by
  have h2 : (fs.filter isPickupFlag).map
      (fun f => (⟨f.name.getD "", f.subject⟩ : PickupType)) = [] := h
  exact List.map_eq_nil_iff.mp h2

theorem any_of_pickupTypesOf_ne_nil {fs : List Flag}
    (h : pickupTypesOf fs ≠ []) : fs.any isPickupFlag = true := by
  by_contra hc
  have hany : fs.any isPickupFlag = false := by simpa using hc
  have hfil : fs.filter isPickupFlag = [] :=
    List.filter_eq_nil_iff.mpr (List.any_eq_false.mp hany)
  exact h (by simp [pickupTypesOf, hfil])

theorem allAreaVals_cons (e : RawEvent) (es : List RawEvent) :
    allAreaVals (e :: es) = eventAreaVals e ++ allAreaVals es := rfl

/-- The event loop splits over list append: process the first part, then the
second part starting from the latch the first part left behind. -/
theorem processEvents_append :
    ∀ (es1 : List RawEvent) (a : Option String) (es2 : List RawEvent),
      processEvents a (es1 ++ es2) =
        match processEvents a es1 with
        | .error e => .error e
        | .ok (a1, evs1) =>
          match processEvents a1 es2 with
          | .error e => .error e
          | .ok (a2, evs2) => .ok (a2, evs1 ++ evs2) := by
  intro es1
  induction es1 with
  | nil =>
    intro a es2
    simp only [List.nil_append, processEvents]
    cases h : processEvents a es2 with
    | error e => rfl
    | ok x => obtain ⟨a2, evs⟩ := x; rfl
  | cons e es ih =>
    intro a es2
    simp only [List.cons_append]
    cases hf : e.flags with
    | none =>
      simp only [processEvents, hf]
      exact ih a es2
    | some fs =>
      cases hpf : processFlags a fs with
      | error err => simp [processEvents, hf, hpf]
      | ok x =>
        obtain ⟨a2, pts⟩ := x
        by_cases hemp : pts.isEmpty = true
        · simp only [processEvents, hf, hpf, hemp, if_true]
          exact ih a2 es2
        · have hemp2 : pts.isEmpty = false := by simpa using hemp
          cases hd : parseDay e.day with
          | none => simp [processEvents, hf, hpf, hemp2, hd]
          | some d =>
            simp only [processEvents, hf, hpf, hemp2, hd, Bool.false_eq_true, if_false]
            rw [ih a2 es2]
            cases h1 : processEvents a2 es with
            | error e1 => simp
            | ok y =>
              obtain ⟨a3, evs3⟩ := y
              cases h2 : processEvents a3 es2 with
              | error e2 => simp [h2]
              | ok z =>
                obtain ⟨a4, evs4⟩ := z
                simp [h2]

/-- On success, the event loop leaves the latch at its fold over all pickup
flags' `area_name` values, keeps exactly the events with a pickup flag, and
every emitted event has a nonempty `pickup_types` list and an `area_name`
that is the latch of some prefix of the value list. -/
theorem processEvents_ok_spec :
    ∀ (es : List RawEvent) (a a2 : Option String) (evs : List PickupEvent),
      processEvents a es = .ok (a2, evs) →
      a2 = latchList a (allAreaVals es) ∧
      evs.length = (es.filter keptEvent).length ∧
      ∀ pe ∈ evs, pe.pickup_types ≠ [] ∧
        ∃ vs ws, allAreaVals es = vs ++ ws ∧ pe.area_name = latchList a vs := by
  intro es
  induction es with
  | nil =>
    intro a a2 evs h
    cases h
    exact ⟨rfl, rfl, by simp⟩
  | cons e es ih =>
    intro a a2 evs h
    cases hf : e.flags with
    | none =>
      simp only [processEvents, hf] at h
      have hv : eventAreaVals e = [] := by simp [eventAreaVals, hf, pickupVals]
      have hk : keptEvent e = false := by simp [keptEvent, hf]
      obtain ⟨h1, h2, h3⟩ := ih a a2 evs h
      refine ⟨by simp [allAreaVals_cons, hv, h1], by simp [List.filter_cons, hk, h2], ?_⟩
      intro pe hpe
      obtain ⟨hne, vs, ws, hsplit, harea⟩ := h3 pe hpe
      exact ⟨hne, vs, ws, by simp [allAreaVals_cons, hv, hsplit], harea⟩
    | some fs =>
      cases hpf : processFlags a fs with
      | error err => simp [processEvents, hf, hpf] at h
      | ok x =>
        obtain ⟨aMid, pts⟩ := x
        obtain ⟨hmid, hpts⟩ := processFlags_ok_spec fs a aMid pts hpf
        have hVals : eventAreaVals e = pickupVals fs := by simp [eventAreaVals, hf]
        by_cases hemp : pts.isEmpty = true
        · simp only [processEvents, hf, hpf, hemp, if_true] at h
          have hptsnil : pickupTypesOf fs = [] := by
            rw [← hpts]; exact List.isEmpty_iff.mp hemp
          have hfil := filter_eq_nil_of_pickupTypesOf hptsnil
          have hvals0 : pickupVals fs = [] := by simp [pickupVals, hfil]
          have hk : keptEvent e = false := by
            have hany : fs.any isPickupFlag = false :=
              List.any_eq_false.mpr (List.filter_eq_nil_iff.mp hfil)
            simp [keptEvent, hf, hany]
          have haMid : aMid = a := by rw [hmid, hvals0, latchList_nil]
          subst haMid
          obtain ⟨h1, h2, h3⟩ := ih aMid a2 evs h
          refine ⟨by simp [allAreaVals_cons, hVals, hvals0, h1],
        by simp [List.filter_cons, hk, h2], ?_⟩
          intro pe hpe
          obtain ⟨hne, vs, ws, hsplit, harea⟩ := h3 pe hpe
          exact ⟨hne, vs, ws, by simp [allAreaVals_cons, hVals, hvals0, hsplit], harea⟩
        · have hemp2 : pts.isEmpty = false := by simpa using hemp
          cases hd : parseDay e.day with
          | none => simp [processEvents, hf, hpf, hemp2, hd] at h
          | some d =>
            cases hrec : processEvents aMid es with
            | error err => simp [processEvents, hf, hpf, hemp2, hd, hrec] at h
            | ok y =>
              obtain ⟨a3, rest⟩ := y
              simp only [processEvents, hf, hpf, hemp2, hd, hrec, Bool.false_eq_true,
                if_false, Except.ok.injEq, Prod.mk.injEq] at h
              obtain ⟨h1, h2⟩ := h
              subst h1
              subst h2
              have hptsnil : pts ≠ [] := by
                intro hnil
                rw [hnil] at hemp2
                simp at hemp2
              obtain ⟨g1, g2, g3⟩ := ih aMid a3 rest hrec
              have hk : keptEvent e = true := by
                have hptsne : pickupTypesOf fs ≠ [] := by
                  rw [← hpts]
                  exact hptsnil
                simp [keptEvent, hf, any_of_pickupTypesOf_ne_nil hptsne]
              refine ⟨?_, ?_, ?_⟩
              · rw [g1, hmid, allAreaVals_cons, hVals, latchList_append]
              · simp [List.filter_cons, hk, g2]
              · intro pe hpe
                rcases List.mem_cons.mp hpe with hpe | hpe
                · subst hpe
                  refine ⟨hptsnil,
                    pickupVals fs, allAreaVals es, by rw [allAreaVals_cons, hVals], hmid⟩
                · obtain ⟨hne, vs, ws, hsplit, harea⟩ := g3 pe hpe
                  refine ⟨hne, pickupVals fs ++ vs, ws, ?_, ?_⟩
                  · rw [allAreaVals_cons, hVals, hsplit, List.append_assoc]
                  · rw [harea, hmid, latchList_append]

/-- If every pickup-type flag carries `"name"` and `"area_name"` keys and
every kept event's `"day"` parses, the event loop cannot raise: events
without a `"flags"` key and flags without a `"subject"` key are skipped or
defaulted silently. -/
theorem processEvents_isOk :
    ∀ (es : List RawEvent) (a : Option String),
      (∀ e ∈ es, ∀ f ∈ e.flags.getD [],
        isPickupFlag f = true → f.name.isSome ∧ f.area_name.isSome) →
      (∀ e ∈ es, keptEvent e = true → (parseDay e.day).isSome) →
      ∃ x, processEvents a es = .ok x := by
  intro es
  induction es with
  | nil => exact fun a _ _ => ⟨(a, []), rfl⟩
  | cons e es ih =>
    intro a hkeys hdays
    have hkeysRest : ∀ e2 ∈ es, ∀ f ∈ e2.flags.getD [],
        isPickupFlag f = true → f.name.isSome ∧ f.area_name.isSome :=
      fun e2 he2 => hkeys e2 (by simp [he2])
    have hdaysRest : ∀ e2 ∈ es, keptEvent e2 = true → (parseDay e2.day).isSome :=
      fun e2 he2 => hdays e2 (by simp [he2])
    cases hf : e.flags with
    | none =>
      obtain ⟨x, hx⟩ := ih a hkeysRest hdaysRest
      exact ⟨x, by simp only [processEvents, hf]; exact hx⟩
    | some fs =>
      have hkeysE : ∀ f ∈ fs, isPickupFlag f = true → f.name.isSome ∧ f.area_name.isSome := by
        intro f hfm
        exact hkeys e (by simp) f (by simp [hf, hfm])
      obtain ⟨⟨aMid, pts⟩, hpf⟩ := processFlags_isOk fs a hkeysE
      by_cases hemp : pts.isEmpty = true
      · obtain ⟨x, hx⟩ := ih aMid hkeysRest hdaysRest
        exact ⟨x, by simp only [processEvents, hf, hpf, hemp, if_true]; exact hx⟩
      · have hemp2 : pts.isEmpty = false := by simpa using hemp
        obtain ⟨hmid, hpts⟩ := processFlags_ok_spec fs a aMid pts hpf
        have hk : keptEvent e = true := by
          have hptsne : pickupTypesOf fs ≠ [] := by
            rw [← hpts]
            intro hnil
            rw [hnil] at hemp2
            simp at hemp2
          simp [keptEvent, hf, any_of_pickupTypesOf_ne_nil hptsne]
        obtain ⟨d, hd⟩ := Option.isSome_iff_exists.mp (hdays e (by simp) hk)
        obtain ⟨⟨a3, rest⟩, hrec⟩ := ih aMid hkeysRest hdaysRest
        refine ⟨(a3, ⟨d, pts, aMid⟩ :: rest), ?_⟩
        simp [processEvents, hf, hpf, hemp2, hd, hrec]

/-! ### Claims -/

/-- Claim C1: for every parsed API response, any event whose flags contain no
flag with `event_type == "pickup"` (including events with an empty flags
list, and events with no flags collection) is excluded from the list
returned by `async_get_pickup_events`: the result has exactly one entry per
kept event (an event with at least one pickup-type flag), and every
returned event carries at least one pickup type. -/
theorem claim_C1 (r : Response) (evs : List PickupEvent)
    (h : async_get_pickup_events_parse r = .ok evs) :
    evs.length = (r.events.filter keptEvent).length ∧
      ∀ pe ∈ evs, pe.pickup_types ≠ [] := by
  cases hp : processEvents none r.events with
  | error e =>
    simp [async_get_pickup_events_parse, hp] at h
  | ok x =>
    obtain ⟨a2, evs2⟩ := x
    simp only [async_get_pickup_events_parse, hp, Except.ok.injEq] at h
    subst h
    obtain ⟨_, h2, h3⟩ := processEvents_ok_spec r.events none a2 evs2 hp
    exact ⟨h2, fun pe hpe => (h3 pe hpe).1⟩

/-- Concrete response for the C1 witness: a reminder-only event, an event
without a flags key, and one pickup event. -/
def wC1resp : Response :=
  ⟨[⟨some [⟨some "reminder", some "r", none, none⟩], "2020-11-01"⟩,
    ⟨none, "2020-11-02"⟩,
    ⟨some [⟨some "pickup", some "garbage", some "Trash", some (some "Atlantis")⟩],
      "2020-11-02"⟩]⟩

/-- The parsed result for the C1 witness. -/
def wC1evs : List PickupEvent :=
  [⟨⟨2020, 11, 2⟩, [⟨"garbage", some "Trash"⟩], some "Atlantis"⟩]

theorem claim_C1_witness :
    async_get_pickup_events_parse wC1resp = .ok wC1evs ∧
      wC1evs.length = (wC1resp.events.filter keptEvent).length ∧
      ∀ pe ∈ wC1evs, pe.pickup_types ≠ [] :=
  ⟨rfl, claim_C1 wC1resp wC1evs rfl⟩

/-- Claim C3 counterexample: an event whose single pickup-type flag lacks the
`area_name` key. The claim says missing optional fields are defaulted and
the call never raises, but `flag["area_name"]` is a direct subscript, so
before an area name is latched the parse raises `KeyError("area_name")`. -/
theorem claim_C3_counterexample :
    async_get_pickup_events_parse
      ⟨[⟨some [⟨some "pickup", some "trash", none, none⟩], "2021-01-01"⟩]⟩ =
      .error (.keyError "area_name") := rfl

/-- Claim C3 (amended): parsing-level irregularities — an event missing its
flags collection, or a flag missing the optional `subject` field — never
make `async_get_pickup_events` raise, provided every pickup-type flag
carries its `"name"` and `"area_name"` keys and every kept event's day
parses: under those conditions the call returns a list. (Unamended, the
claim is false: a pickup-type flag missing the `area_name` key raises
`KeyError` while no area name is latched yet.) -/
theorem claim_C3 (r : Response)
    (hkeys : ∀ e ∈ r.events, ∀ f ∈ e.flags.getD [],
      isPickupFlag f = true → f.name.isSome ∧ f.area_name.isSome)
    (hdays : ∀ e ∈ r.events, keptEvent e = true → (parseDay e.day).isSome) :
    ∃ evs, async_get_pickup_events_parse r = .ok evs := by
  obtain ⟨⟨a2, evs⟩, h⟩ := processEvents_isOk r.events none hkeys hdays
  exact ⟨evs, by simp [async_get_pickup_events_parse, h]⟩

/-- Concrete response for the C3 witness: an event with no flags key, a flag
with no subject key, and a reminder flag with no keys at all. -/
def wC3resp : Response :=
  ⟨[⟨none, "not-even-a-date"⟩,
    ⟨some [⟨some "reminder", none, none, none⟩,
           ⟨some "pickup", some "organics", none, some (some "Z")⟩], "2020-12-01"⟩]⟩

theorem claim_C3_witness :
    (∀ e ∈ wC3resp.events, ∀ f ∈ e.flags.getD [],
      isPickupFlag f = true → f.name.isSome ∧ f.area_name.isSome) ∧
    (∀ e ∈ wC3resp.events, keptEvent e = true → (parseDay e.day).isSome) ∧
    ∃ evs, async_get_pickup_events_parse wC3resp = .ok evs :=
  ⟨by decide, by decide, claim_C3 wC3resp (by decide) (by decide)⟩

/-- Claim C4: `async_get_next_pickup_event` scans the fetched list in order
and returns the first event whose date is on-or-after today (`>=`, so an
event dated exactly today is returned), and it raises `DataError` if and
only if no event in the list has a date on-or-after today — including when
the list is empty. -/
theorem claim_C4 (today : Date) (evs : List PickupEvent) :
    (async_get_next_pickup_event today evs =
      match evs.find? (fun pe => dateLE today pe.date) with
      | some pe => .ok pe
      | none => .error (.dataError "No pickup events found after today")) ∧
    (async_get_next_pickup_event today evs =
        .error (.dataError "No pickup events found after today") ↔
      ∀ pe ∈ evs, dateLE today pe.date = false) := by
  have h1 : ∀ l : List PickupEvent, async_get_next_pickup_event today l =
      match l.find? (fun pe => dateLE today pe.date) with
      | some pe => .ok pe
      | none => .error (.dataError "No pickup events found after today") := by
    intro l
    induction l with
    | nil => rfl
    | cons pe rest ih =>
      by_cases hd : dateLE today pe.date = true
      · rw [List.find?_cons_of_pos rest hd]
        simp [async_get_next_pickup_event, hd]
      · have hd2 : dateLE today pe.date = false := by simpa using hd
        rw [List.find?_cons_of_neg rest (by simp [hd2])]
        simp only [async_get_next_pickup_event, hd2, Bool.false_eq_true, if_false]
        exact ih
  refine ⟨h1 evs, ?_⟩
  rw [h1 evs]
  cases hf : evs.find? (fun pe => dateLE today pe.date) with
  | none =>
    constructor
    · intro _ pe hpe
      simpa using List.find?_eq_none.mp hf pe hpe
    · intro _
      rfl
  | some pe =>
    constructor
    · intro hcontra
      simp at hcontra
    · intro hall
      have hmem := List.mem_of_find?_eq_some hf
      have hpos := List.find?_some hf
      rw [hall pe hmem] at hpos
      exact Bool.noConfusion hpos

/-- Claim C5: when both `start_date` and `end_date` are supplied, the request
URL gets `?after=<start>&before=<end>` appended with ISO-8601 dates; when
exactly one of the two is supplied, neither bound is added and the URL is
identical to the unfiltered case. -/
theorem claim_C5 (u : String) (s e : Date) :
    pickupDataUrl u (some s) (some e) =
      u ++ "?after=" ++ s.isoformat ++ "&before=" ++ e.isoformat ∧
    pickupDataUrl u (some s) none = pickupDataUrl u none none ∧
    pickupDataUrl u none (some e) = pickupDataUrl u none none ∧
    pickupDataUrl u none none = u :=
  ⟨rfl, rfl, rfl, rfl⟩

/-- Claim C6: for every API response whose events array is empty,
`async_get_pickup_events` parses to the empty list and raises nothing. -/
theorem claim_C6 (r : Response) (h : r.events = []) :
    async_get_pickup_events_parse r = .ok [] := by
  obtain ⟨events⟩ := r
  cases h
  rfl

theorem claim_C6_witness :
    (Response.mk []).events = [] ∧
      async_get_pickup_events_parse ⟨[]⟩ = .ok [] :=
  ⟨rfl, claim_C6 ⟨[]⟩ rfl⟩

/-- Claim C7: for every request, if an externally supplied session exists and
is not closed, that session is used and the client closes no session at
all (in particular never the external one); otherwise — no external
session, or a closed one — a new session is created for exactly that one
request and closed on every exit path (success, transport error, or any
other exception), since the action log does not depend on the transport
outcome `t`. -/
theorem claim_C7 (ext : Option Session) (t : Transport) :
    (∀ s, ext = some s → s.closed = false →
      (asyncRequest ext t).1 = [SessAction.useBorrowed]) ∧
    ((ext = none ∨ ext = some ⟨true⟩) →
      (asyncRequest ext t).1 = [SessAction.createOwn, SessAction.closeOwn]) ∧
    SessAction.closeBorrowed ∉ (asyncRequest ext t).1 := by
  refine ⟨?_, ?_, ?_⟩
  · intro s hs hc
    subst hs
    simp [asyncRequest, hc]
  · rintro (h | h) <;> subst h <;> simp [asyncRequest]
  · cases ext with
    | none => simp [asyncRequest]
    | some s => cases hs : s.closed <;> simp [asyncRequest, hs]

theorem claim_C7_witness :
    (asyncRequest (some ⟨false⟩) .failure).1 = [SessAction.useBorrowed] ∧
    (asyncRequest none .otherException).1 =
      [SessAction.createOwn, SessAction.closeOwn] ∧
    (asyncRequest (some ⟨true⟩) (.response 200 ⟨[]⟩)).1 =
      [SessAction.createOwn, SessAction.closeOwn] :=
  ⟨(claim_C7 (some ⟨false⟩) .failure).1 ⟨false⟩ rfl rfl,
   (claim_C7 none .otherException).2.1 (Or.inl rfl),
   (claim_C7 (some ⟨true⟩) (.response 200 ⟨[]⟩)).2.1 (Or.inr rfl)⟩

/-- Claim C8 counterexample: the claim counts a timeout among the failures
raised as `RequestError`, but the expiry of the configured total timeout
raises `asyncio.TimeoutError`, which is not an aiohttp `ClientError`, so
the `except ClientError` clause at the request site does not translate it:
the call ends with the unhandled timeout exception, which is not the
request-error kind. -/
theorem claim_C8_counterexample :
    async_get_pickup_events none .timeout = .error (.req .unhandledTimeout) ∧
    isRequestError .unhandledTimeout = false :=
  ⟨rfl, rfl⟩

/-- Claim C8 (amended): for every transport failure surfaced as an aiohttp
`ClientError` — a failing exchange, or a non-success status code such as
HTTP 502 raised by `raise_for_status` — `async_get_pickup_events` raises
`RequestError` carrying the underlying cause, and no failure path returns
a result list; the expiry of the configured total timeout, however, raises
`asyncio.TimeoutError`, which `except ClientError` does not catch, so it
escapes unwrapped rather than as `RequestError` (still never a partial
result). -/
theorem claim_C8 (ext : Option Session) (t : Transport) (st : Nat) (b : Response) :
    (t = .failure →
      async_get_pickup_events ext t =
        .error (.req (.requestError .connectionError))) ∧
    (t = .response st b → 400 ≤ st →
      async_get_pickup_events ext t =
        .error (.req (.requestError (.responseError st)))) ∧
    (t = .timeout →
      async_get_pickup_events ext t = .error (.req .unhandledTimeout) ∧
        isRequestError .unhandledTimeout = false) := by
  refine ⟨?_, ?_, ?_⟩
  · intro ht
    subst ht
    simp [async_get_pickup_events, asyncRequest, tryBlock, handleClientError]
  · intro ht hst
    subst ht
    simp [async_get_pickup_events, asyncRequest, tryBlock, handleClientError, hst]
  · intro ht
    subst ht
    exact ⟨by simp [async_get_pickup_events, asyncRequest, tryBlock, handleClientError],
      rfl⟩

theorem claim_C8_witness :
    async_get_pickup_events none (.response 502 ⟨[]⟩) =
      .error (.req (.requestError (.responseError 502))) ∧
    async_get_pickup_events (some ⟨false⟩) .failure =
      .error (.req (.requestError .connectionError)) ∧
    (async_get_pickup_events (some ⟨false⟩) .timeout =
        .error (.req .unhandledTimeout) ∧
      isRequestError .unhandledTimeout = false) :=
  ⟨(claim_C8 none (.response 502 ⟨[]⟩) 502 ⟨[]⟩).2.1 rfl (by decide),
   (claim_C8 (some ⟨false⟩) .failure 0 ⟨[]⟩).1 rfl,
   (claim_C8 (some ⟨false⟩) .timeout 0 ⟨[]⟩).2.2 rfl⟩

/-- Claim C9: within one parse, the response-wide area name is latched from
the first pickup-type flag whose `area_name` value is truthy (non-null,
non-empty): if the value list has a first truthy element `v`, the final
latch equals `v` — so falsy values before it do not stop the search, and
later pickup flags carrying different values never overwrite it — and if
no truthy value occurs the latch ends falsy. -/
theorem claim_C9 (es : List RawEvent) (a2 : Option String) (evs : List PickupEvent)
    (h : processEvents none es = .ok (a2, evs)) :
    (∀ v, (allAreaVals es).find? truthy = some v →
      a2 = v ∧ truthy v = true) ∧
    ((allAreaVals es).find? truthy = none → truthy a2 = false) := by
  obtain ⟨h1, _, _⟩ := processEvents_ok_spec es none a2 evs h
  constructor
  · intro v hv
    refine ⟨?_, List.find?_some hv⟩
    rw [h1]
    exact latchList_find_truthy (allAreaVals es) none v rfl hv
  · intro hn
    rw [h1]
    refine latchList_of_no_truthy (allAreaVals es) none rfl ?_
    intro v hv
    simpa using List.find?_eq_none.mp hn v hv

/-- Concrete events for the C9 witness: pickup flags carrying an empty
string, a null, the truthy value "X", then a different truthy value "Y". -/
def wC9es : List RawEvent :=
  [⟨some [⟨some "pickup", some "a", none, some (some "")⟩,
          ⟨some "pickup", some "b", none, some none⟩], "2021-03-01"⟩,
   ⟨some [⟨some "pickup", some "c", none, some (some "X")⟩], "2021-03-02"⟩,
   ⟨some [⟨some "pickup", some "d", none, some (some "Y")⟩], "2021-03-03"⟩]

/-- The parsed result for the C9 witness. -/
def wC9evs : List PickupEvent :=
  [⟨⟨2021, 3, 1⟩, [⟨"a", none⟩, ⟨"b", none⟩], none⟩,
   ⟨⟨2021, 3, 2⟩, [⟨"c", none⟩], some "X"⟩,
   ⟨⟨2021, 3, 3⟩, [⟨"d", none⟩], some "X"⟩]

theorem claim_C9_witness :
    (some "X" : Option String) = some "X" ∧ truthy (some "X") = true :=
  (claim_C9 wC9es (some "X") wC9evs rfl).1 (some "X") rfl

/-- Modelled from the spec's words for claim C2: the event position (in
iteration order) and carried value of the first pickup-type flag that
carries an `area_name` field, where a field present with JSON null carries
the value null. -/
def specFirstAreaField : Nat → List RawEvent → Option (Nat × Option String)
  | _, [] => none
  | i, e :: es =>
    match ((e.flags.getD []).filter isPickupFlag).findSome? (fun f => f.area_name) with
    | some v => some (i, v)
    | none => specFirstAreaField (i + 1) es

/-- Concrete events refuting claim C2 as stated: the first pickup-type flag
carrying an `area_name` field is in the event at position 0 and carries
null. -/
def cexC2es : List RawEvent :=
  [⟨some [⟨some "pickup", some "trash", none, some none⟩], "2021-01-01"⟩,
   ⟨some [⟨some "pickup", some "recycle", none, some (some "X")⟩], "2021-01-02"⟩]

/-- Claim C2 counterexample: in `cexC2es` the first pickup-carrying flag that
carries an `area_name` field occurs at event position 0 and carries the
value null, so the claim requires every emitted event at or after position
0 to have `area_name == null`; but both events are emitted in order and
the second one has `area_name == "X" ≠ null`. -/
theorem claim_C2_counterexample :
    specFirstAreaField 0 cexC2es = some (0, none) ∧
    async_get_pickup_events_parse ⟨cexC2es⟩ =
      .ok [⟨⟨2021, 1, 1⟩, [⟨"trash", none⟩], none⟩,
           ⟨⟨2021, 1, 2⟩, [⟨"recycle", none⟩], some "X"⟩] ∧
    (some "X" : Option String) ≠ none :=
  ⟨rfl, rfl, by decide⟩

/-- Claim C2 (amended): when parsing succeeds and the first pickup-type flag
whose `area_name` value is truthy sits in the event `e` at position `k`
(that is, no pickup flag of the events before `e` has a truthy value, and
`e` has one), every event emitted for a position at or after `k` has that
value as its `area_name`, and every event emitted for a position strictly
before `k` has a falsy `area_name` — null or the empty string, not
necessarily null. The original claim fails because a present-but-falsy
`area_name` field does not end the search. -/
theorem claim_C2 (es1 : List RawEvent) (e : RawEvent) (es2 : List RawEvent)
    (a2 : Option String) (evs : List PickupEvent) (v : Option String)
    (hbefore : (allAreaVals es1).find? truthy = none)
    (hat : (eventAreaVals e).find? truthy = some v)
    (h : processEvents none (es1 ++ e :: es2) = .ok (a2, evs)) :
    ∃ a1 evs1 evs2, processEvents none es1 = .ok (a1, evs1) ∧
      evs = evs1 ++ evs2 ∧ evs2 ≠ [] ∧
      (∀ pe ∈ evs1, truthy pe.area_name = false) ∧
      (∀ pe ∈ evs2, pe.area_name = v) ∧ a2 = v := by
  rw [processEvents_append es1 none (e :: es2)] at h
  cases hA : processEvents none es1 with
  | error err => simp [hA] at h
  | ok x =>
    obtain ⟨a1, evs1⟩ := x
    simp only [hA] at h
    cases hB : processEvents a1 (e :: es2) with
    | error err => simp [hB] at h
    | ok y =>
      obtain ⟨a3, evs2⟩ := y
      simp only [hB, Except.ok.injEq, Prod.mk.injEq] at h
      obtain ⟨ha3, hevs⟩ := h
      subst ha3
      subst hevs
      obtain ⟨g1, _, g3⟩ := processEvents_ok_spec es1 none a1 evs1 hA
      have hfalsyAll : ∀ w ∈ allAreaVals es1, truthy w = false := by
        intro w hw
        simpa using List.find?_eq_none.mp hbefore w hw
      have ha1 : truthy a1 = false := by
        rw [g1]
        exact latchList_of_no_truthy (allAreaVals es1) none rfl hfalsyAll
      have hEvs1Falsy : ∀ pe ∈ evs1, truthy pe.area_name = false := by
        intro pe hpe
        obtain ⟨_, vs, ws, hsplit, harea⟩ := g3 pe hpe
        rw [harea]
        refine latchList_of_no_truthy vs none rfl ?_
        intro w hw
        exact hfalsyAll w (by rw [hsplit]; exact List.mem_append_left ws hw)
      cases hfl : e.flags with
      | none => simp [eventAreaVals, pickupVals, hfl] at hat
      | some fs =>
        have hVals : eventAreaVals e = pickupVals fs := by simp [eventAreaVals, hfl]
        cases hpf : processFlags a1 fs with
        | error err => simp [processEvents, hfl, hpf] at hB
        | ok z =>
          obtain ⟨aM, pts⟩ := z
          obtain ⟨hmid, hpts⟩ := processFlags_ok_spec fs a1 aM pts hpf
          have haM : aM = v := by
            rw [hmid]
            rw [hVals] at hat
            exact latchList_find_truthy (pickupVals fs) a1 v ha1 hat
          have htv : truthy v = true := List.find?_some hat
          have hptsne : pts ≠ [] := by
            intro hnil
            rw [hnil] at hpts
            have hfil := filter_eq_nil_of_pickupTypesOf hpts.symm
            rw [hVals] at hat
            simp [pickupVals, hfil, List.find?] at hat
          have hemp : pts.isEmpty = false := by
            cases pts with
            | nil => exact absurd rfl hptsne
            | cons p ps => rfl
          cases hd : parseDay e.day with
          | none => simp [processEvents, hfl, hpf, hemp, hd] at hB
          | some d =>
            cases hrec : processEvents aM es2 with
            | error err => simp [processEvents, hfl, hpf, hemp, hd, hrec] at hB
            | ok w =>
              obtain ⟨aE, rest⟩ := w
              simp only [processEvents, hfl, hpf, hemp, hd, hrec, Bool.false_eq_true,
                if_false, Except.ok.injEq, Prod.mk.injEq] at hB
              obtain ⟨hB1, hB2⟩ := hB
              obtain ⟨r1, _, r3⟩ := processEvents_ok_spec es2 aM aE rest hrec
              have htvM : truthy aM = true := by rw [haM]; exact htv
              refine ⟨a1, evs1, evs2, rfl, rfl, ?_, hEvs1Falsy, ?_, ?_⟩
              · rw [← hB2]
                simp
              · intro pe hpe
                rw [← hB2] at hpe
                rcases List.mem_cons.mp hpe with hpe | hpe
                · rw [hpe, haM]
                · obtain ⟨_, vs, ws, _, harea⟩ := r3 pe hpe
                  rw [harea, latchList_of_truthy htvM vs, haM]
              · rw [← hB1, r1, latchList_of_truthy htvM, haM]

/-- Concrete events for the C2 witness: one event with falsy (null) area
names before the latch, the latching event carrying "Area51", one after. -/
def wC2es1 : List RawEvent :=
  [⟨some [⟨some "pickup", some "p", none, some none⟩], "2021-05-01"⟩]

/-- The latching event of the C2 witness. -/
def wC2e : RawEvent :=
  ⟨some [⟨some "pickup", some "q", none, some (some "Area51")⟩], "2021-05-02"⟩

/-- The post-latch events of the C2 witness. -/
def wC2es2 : List RawEvent :=
  [⟨some [⟨some "pickup", some "s", none, some (some "Other")⟩], "2021-05-03"⟩]

theorem claim_C2_witness :
    ∃ a1 evs1 evs2, processEvents none wC2es1 = .ok (a1, evs1) ∧
      [(⟨⟨2021, 5, 1⟩, [⟨"p", none⟩], none⟩ : PickupEvent),
       ⟨⟨2021, 5, 2⟩, [⟨"q", none⟩], some "Area51"⟩,
       ⟨⟨2021, 5, 3⟩, [⟨"s", none⟩], some "Area51"⟩] = evs1 ++ evs2 ∧
      evs2 ≠ [] ∧
      (∀ pe ∈ evs1, truthy pe.area_name = false) ∧
      (∀ pe ∈ evs2, pe.area_name = some "Area51") ∧
      (some "Area51" : Option String) = some "Area51" :=
  claim_C2 wC2es1 wC2e wC2es2 (some "Area51") _ (some "Area51") rfl rfl rfl

/-- Modelled from the spec's words for claim C10: a string in strict
`YYYY-MM-DD` shape — four digits, a dash, two digits, a dash, two digits. -/
def specStrictYMD (s : String) : Bool :=
  match s.toList with
  | [y1, y2, y3, y4, '-', m1, m2, '-', d1, d2] =>
    y1.isDigit && y2.isDigit && y3.isDigit && y4.isDigit &&
      m1.isDigit && m2.isDigit && d1.isDigit && d2.isDigit
  | _ => false

/-- Claim C10 counterexample: `"2021-1-1"` is not in strict `YYYY-MM-DD`
format, yet a kept event carrying it parses fine — `strptime("%Y-%m-%d")`
accepts non-zero-padded months and days — so the parse returns a list
instead of raising the claimed ValueError. -/
theorem claim_C10_counterexample :
    specStrictYMD "2021-1-1" = false ∧
    async_get_pickup_events_parse
      ⟨[⟨some [⟨some "pickup", some "trash", none, some (some "A")⟩], "2021-1-1"⟩]⟩ =
      .ok [⟨⟨2021, 1, 1⟩, [⟨"trash", none⟩], some "A"⟩] :=
  ⟨rfl, rfl⟩

/-- Claim C10 (amended): for a kept event (flags present, at least one
pickup-type flag) whose `"day"` string is rejected by
`strptime("%Y-%m-%d")` — which accepts a 4-digit year, optionally
non-padded month and day, and a constructible calendar date, so strictly
more than zero-padded `YYYY-MM-DD` — and assuming the events before it and
its own flag loop raise nothing, `async_get_pickup_events` raises the
date-parsing ValueError: not `RequestError`, not `DataError`, and the
event is not skipped. -/
theorem claim_C10 (es1 : List RawEvent) (e : RawEvent) (es2 : List RawEvent)
    (fs : List Flag) (a1 aM : Option String)
    (evs1 : List PickupEvent) (pts : List PickupType)
    (hA : processEvents none es1 = .ok (a1, evs1))
    (hf : e.flags = some fs)
    (hpf : processFlags a1 fs = .ok (aM, pts))
    (hpts : pts ≠ [])
    (hday : parseDay e.day = none) :
    processEvents none (es1 ++ e :: es2) = .error .valueError ∧
    async_get_pickup_events_parse ⟨es1 ++ e :: es2⟩ = .error .valueError ∧
    ∀ (ext : Option Session) (st : Nat), st < 400 →
      async_get_pickup_events ext (.response st ⟨es1 ++ e :: es2⟩) =
        .error (.parse .valueError) := by
  have hemp : pts.isEmpty = false := by
    cases pts with
    | nil => exact absurd rfl hpts
    | cons p ps => rfl
  have h1 : processEvents none (es1 ++ e :: es2) = .error .valueError := by
    rw [processEvents_append es1 none (e :: es2)]
    simp [hA, processEvents, hf, hpf, hemp, hday]
  refine ⟨h1, ?_, ?_⟩
  · simp [async_get_pickup_events_parse, h1]
  · intro ext st hst
    have hnot : ¬400 ≤ st := Nat.not_le.mpr hst
    simp [async_get_pickup_events, asyncRequest, tryBlock, handleClientError, hnot,
      async_get_pickup_events_parse, h1]

theorem claim_C10_witness :
    processEvents none
        ([] ++ ⟨some [⟨some "pickup", some "trash", none, some (some "A")⟩],
          "January 5, 2021"⟩ :: []) = .error .valueError ∧
    async_get_pickup_events_parse
        ⟨[] ++ ⟨some [⟨some "pickup", some "trash", none, some (some "A")⟩],
          "January 5, 2021"⟩ :: []⟩ = .error .valueError ∧
    ∀ (ext : Option Session) (st : Nat), st < 400 →
      async_get_pickup_events ext
          (.response st ⟨[] ++ ⟨some [⟨some "pickup", some "trash", none,
            some (some "A")⟩, ], "January 5, 2021"⟩ :: []⟩) =
        .error (.parse .valueError) :=
  claim_C10 [] ⟨some [⟨some "pickup", some "trash", none, some (some "A")⟩],
      "January 5, 2021"⟩ [] [⟨some "pickup", some "trash", none, some (some "A")⟩]
    none (some "A") [] [⟨"trash", none⟩] rfl rfl rfl (by decide) rfl

end Aiorecollect
